import Mathlib

/-!
Verification of the Hopfield-network sequential-learning engine.

The Python engine is shallowly embedded here: vectors are lists of
rationals, matrices are lists of rows, mutation becomes explicit state
passing, and raised exceptions become Except values.  Every definition is
translated from the Python source in src/HopfieldNetwork; where a value
carried by an exception matters (the network state at the moment a
RelaxationException propagates), the error constructor carries it.
-/

namespace HopfieldSpec

/-- The Python exceptions that the engine can raise: ValueError from the
shape and dtype validation, and ZeroDivisionError from an unguarded
division by a list length. -/
inductive PyErr where
  | valueError
  | zeroDivisionError
  deriving DecidableEq

/-- A state vector or pattern: the value content of a 1-D numpy array. -/
abbrev Vec := List ℚ

/-- A weight matrix: the value content of a 2-D numpy array, row major. -/
abbrev Mat := List (List ℚ)

/-- A numpy vector together with its dtype tag: the engine validates both
the shape and that the dtype is float64. -/
structure NPVec where
  data : Vec
  isFloat64 : Bool
  deriving DecidableEq

/-- Dot product of two equal-length vectors, as used by np.dot. -/
def dot (a b : Vec) : ℚ := (List.zipWith (fun x y => x * y) a b).sum

/-- Matrix-vector product np.dot(weights, state). -/
def matVec (w : Mat) (s : Vec) : Vec := w.map (fun row => dot row s)

/-- BipolarEnergyFunction.__call__: energies = -1 * np.dot(weights, state) * state. -/
def bipolarEnergy (state : Vec) (weights : Mat) : Vec :=
  List.zipWith (fun ns x => -1 * ns * x) (matVec weights state) state

/-- BinaryEnergyFunction.__call__: energies = np.abs(np.dot(weights, state) - state). -/
def binaryEnergy (state : Vec) (weights : Mat) : Vec :=
  List.zipWith (fun ns x => |ns - x|) (matVec weights state) state

/-- The relax loop guard np.any(unitEnergies() <= 0). -/
def anyNonpositive (es : Vec) : Bool := es.any (fun e => decide (e ≤ 0))

/-- AbstractHopfieldNetwork.compareState: true when the given vector equals
the current state or -1 times the current state, elementwise
(np.array_equal is False on shape mismatch, as is list equality). -/
def compareState (current other : Vec) : Bool :=
  decide (current = other) || decide (current.map (fun x => -1 * x) = other)

/-- An energy function strategy: state and weights to per-unit energies. -/
abbrev EnergyFn := Vec → Mat → Vec

/-- An update rule strategy: state and weights to the next state.  The
concrete update rules live in modules that only re-export them here, so
the engine is verified for an arbitrary update function. -/
abbrev UpdateFn := Vec → Mat → Vec

/-- A learning rule strategy: patterns, result states and current weights
to the new weights. -/
abbrev LearnFn := List Vec → List Vec → Mat → Mat

/-- The body of AbstractHopfieldNetwork.relax, with the loop counter
replaced by the remaining step budget maxSteps + 1 - current_step (the
Python loop raises at the first check with current_step > maxSteps, hence
after exactly maxSteps + 1 updates).  An error carries the network state
at the moment the RelaxationException propagates; the raise happens
before the update of that iteration, so the error state is the output of
the last computed update step. -/
def relaxGo (E : EnergyFn) (U : UpdateFn) (w : Mat) : Nat → Vec → Except Vec Vec
  | remaining, state =>
    if anyNonpositive (E state w) then
      match remaining with
      | 0 => .error state
      | r + 1 => relaxGo E U w r (U state w)
    else .ok state

/-- AbstractHopfieldNetwork.relax with an explicit maxSteps argument. -/
def relaxRun (E : EnergyFn) (U : UpdateFn) (w : Mat) (maxSteps : Nat) (state : Vec) :
    Except Vec Vec :=
  relaxGo E U w (maxSteps + 1) state

/-- AbstractHopfieldNetwork.relax including the default: when maxSteps is
None it is set to the update rule's MAX_STEPS. -/
def relaxCall (E : EnergyFn) (U : UpdateFn) (w : Mat) (maxStepsDefault : Nat)
    (maxSteps : Option Nat) (state : Vec) : Except Vec Vec :=
  relaxRun E U w (maxSteps.getD maxStepsDefault) state

/-- One relaxation step as a function of the state, for stating how many
updates relax performed. -/
def stepFn (U : UpdateFn) (w : Mat) : Vec → Vec := fun s => U s w

/-- The identity update rule, used to exercise the engine loop on
concrete inputs. -/
def idUpdate : UpdateFn := fun s _ => s

/-- An update rule adding one to every unit, used to make successive
relaxation steps observable on concrete inputs. -/
def incrUpdate : UpdateFn := fun s _ => s.map (fun x => x + 1)

/-- Change the sign of exactly one unit of a state vector. -/
def flipAt (s : Vec) (i : Nat) : Vec := s.set i (-1 * s.getD i 0)

/-- A state vector over the bipolar domain: every unit is 1 or -1. -/
def isBipolar (s : Vec) : Prop := ∀ x ∈ s, x = 1 ∨ x = -1

/-- The mutable part of a network object: its size, weights and state. -/
structure HN where
  N : Nat
  weights : Mat
  state : Vec
  deriving DecidableEq

/-- AbstractHopfieldNetwork.getState. -/
def getState (net : HN) : Vec := net.state

/-- The validation applied by setState and learnPatterns to a supplied
vector: state.shape != (N,) or state.dtype != float64 raises ValueError. -/
def validPattern (n : Nat) (p : NPVec) : Bool := (p.data.length == n) && p.isFloat64

/-- AbstractHopfieldNetwork.setState: both raises happen before the
assignment to self.state, so on an error the returned object is the
unmodified network. -/
def setStateNet (net : HN) (v : NPVec) : HN × Option PyErr :=
  if v.data.length ≠ net.N then (net, some PyErr.valueError)
  else if v.isFloat64 = false then (net, some PyErr.valueError)
  else ({ net with state := v.data }, none)

/-- ndarray.copy(): by value the copy is the same vector and dtype. -/
def npCopy (v : NPVec) : NPVec := { data := v.data, isFloat64 := v.isFloat64 }

/-- GeneralHopfieldNetwork.setState: calls the abstract setState on a
defensive copy of the argument. -/
def setStateGeneralNet (net : HN) (v : NPVec) : HN × Option PyErr :=
  setStateNet net (npCopy v)

/-- Map over a list with the element index, for np.fill_diagonal. -/
def enumMap {α β : Type} (f : Nat → α → β) : Nat → List α → List β
  | _, [] => []
  | i, a :: as => f i a :: enumMap f (i + 1) as

/-- np.fill_diagonal(weights, v): entry (i, i) becomes v, all others stay. -/
def fillDiagonal (m : Mat) (v : ℚ) : Mat :=
  enumMap (fun i row => enumMap (fun j x => if i = j then v else x) 0 row) 0 m

/-- Read entry (i, j) of a matrix, with 0 outside the stored rectangle. -/
def matGet (m : Mat) (i j : Nat) : ℚ := (m.getD i []).getD j 0

/-- Elementwise vector difference. -/
def vecSub (a b : Vec) : Vec := List.zipWith (fun x y => x - y) a b

/-- np.outer(a, b). -/
def outer (a b : Vec) : Mat := a.map (fun x => b.map (fun y => x * y))

/-- Elementwise vector sum. -/
def vecAdd (a b : Vec) : Vec := List.zipWith (fun x y => x + y) a b

/-- Elementwise matrix sum, as numpy + on equal-shape matrices. -/
def matAdd (a b : Mat) : Mat := List.zipWith vecAdd a b

/-- Scalar times matrix, elementwise. -/
def smulMat (c : ℚ) (m : Mat) : Mat := m.map (fun row => row.map (fun x => c * x))

/-- np.zeros_like(m). -/
def zerosLike (m : Mat) : Mat := m.map (fun row => row.map (fun _ => 0))

/-- The n-by-n zero matrix. -/
def zeroMat (n : Nat) : Mat := List.replicate n (List.replicate n 0)

/-- Delta.__call__: accumulate weightChanges over i in range(len(patterns))
as 0.5 * outer(patterns[i] - resultStates[i], patterns[i]), then return
weights + weightChanges. -/
def deltaCall (patterns resultStates : List Vec) (weights : Mat) : Mat :=
  let weightChanges := (List.range patterns.length).foldl
    (fun wc i =>
      matAdd wc (smulMat (1 / 2)
        (outer (vecSub (patterns.getD i []) (resultStates.getD i [])) (patterns.getD i []))))
    (zerosLike weights)
  matAdd weights weightChanges

/-- Delta.__init__ sets self.updateSteps = 1. -/
def deltaUpdateSteps : Nat := 1

/-- Delta.__init__ sets self.maxEpoches = 100. -/
def deltaMaxEpoches : Nat := 100

/-- Python division of a rational tally by a list length: raises
ZeroDivisionError on length zero. -/
def pyDiv (a : ℚ) (b : Nat) : Except PyErr ℚ :=
  if b = 0 then .error PyErr.zeroDivisionError else .ok (a / b)

/-- The loop of AbstractHopfieldNetwork.measureTestAccuracy over the
(input, expectedOutput) mappings, threading the accuracy tally and the
network state: setState(input) validates the input, relax() runs with the
default step ceiling and its RelaxationException is caught as a miss, and
a hit needs compareState(expectedOutput) on the relaxed state. -/
def mtaLoop (E : EnergyFn) (U : UpdateFn) (w : Mat) (maxStepsDefault n : Nat) :
    List (NPVec × Vec) → ℚ → Vec → Except PyErr (ℚ × Vec)
  | [], acc, st => .ok (acc, st)
  | (inp, expected) :: rest, acc, _ =>
    if validPattern n inp = false then .error PyErr.valueError
    else
      match relaxRun E U w maxStepsDefault inp.data with
      | .error s2 => mtaLoop E U w maxStepsDefault n rest acc s2
      | .ok s2 =>
        if compareState s2 expected then mtaLoop E U w maxStepsDefault n rest (acc + 1) s2
        else mtaLoop E U w maxStepsDefault n rest acc s2

/-- AbstractHopfieldNetwork.measureTestAccuracy: run the loop from tally 0
and divide by len(testPatternMappings), which is unguarded. -/
def measureTestAccuracy (E : EnergyFn) (U : UpdateFn) (w : Mat) (maxStepsDefault n : Nat)
    (mappings : List (NPVec × Vec)) (st : Vec) : Except PyErr ℚ :=
  match mtaLoop E U w maxStepsDefault n mappings 0 st with
  | .error e => .error e
  | .ok (acc, _) => pyDiv acc mappings.length

/-- Whether one mapping scores a hit in measureTestAccuracy: relax from
the input must return normally and the result must compare equal to the
expected output. -/
def testHit (E : EnergyFn) (U : UpdateFn) (w : Mat) (maxStepsDefault : Nat)
    (m : NPVec × Vec) : Bool :=
  match relaxRun E U w maxStepsDefault m.1.data with
  | .error _ => false
  | .ok s2 => compareState s2 m.2

/-- The number of hits scored over a mapping list. -/
def countTestHits (E : EnergyFn) (U : UpdateFn) (w : Mat) (maxStepsDefault : Nat)
    (ms : List (NPVec × Vec)) : Nat :=
  ms.countP (fun m => testHit E U w maxStepsDefault m)

/-- The inner loop of measureTaskPatternStability over one task's
patterns: relax(learningRule.updateSteps), exhaustion is a miss, and a hit
needs compareState(pattern) on the relaxed state. -/
def taskLoop (E : EnergyFn) (U : UpdateFn) (w : Mat) (updateSteps n : Nat) :
    List NPVec → ℚ → Vec → Except PyErr (ℚ × Vec)
  | [], acc, st => .ok (acc, st)
  | p :: rest, acc, _ =>
    if validPattern n p = false then .error PyErr.valueError
    else
      match relaxRun E U w updateSteps p.data with
      | .error s2 => taskLoop E U w updateSteps n rest acc s2
      | .ok s2 =>
        if compareState s2 p.data then taskLoop E U w updateSteps n rest (acc + 1) s2
        else taskLoop E U w updateSteps n rest acc s2

/-- The outer loop of measureTaskPatternStability: per task the tally is
divided by len(task), unguarded, and appended to the accuracy list. -/
def mtpsLoop (E : EnergyFn) (U : UpdateFn) (w : Mat) (updateSteps n : Nat) :
    List (List NPVec) → List ℚ → Vec → Except PyErr (List ℚ × Vec)
  | [], accs, st => .ok (accs, st)
  | task :: rest, accs, st =>
    match taskLoop E U w updateSteps n task 0 st with
    | .error e => .error e
    | .ok (acc, st2) =>
      match pyDiv acc task.length with
      | .error e => .error e
      | .ok frac => mtpsLoop E U w updateSteps n rest (accs ++ [frac]) st2

/-- AbstractHopfieldNetwork.measureTaskPatternStability. -/
def measureTaskPatternStability (E : EnergyFn) (U : UpdateFn) (w : Mat) (updateSteps n : Nat)
    (tasks : List (List NPVec)) (st : Vec) : Except PyErr (List ℚ) :=
  match mtpsLoop E U w updateSteps n tasks [] st with
  | .error e => .error e
  | .ok (accs, _) => .ok accs

/-- Whether one pattern of a task counts as stable in
measureTaskPatternStability. -/
def taskHit (E : EnergyFn) (U : UpdateFn) (w : Mat) (updateSteps : Nat) (p : NPVec) : Bool :=
  match relaxRun E U w updateSteps p.data with
  | .error _ => false
  | .ok s2 => compareState s2 p.data

/-- The number of stable patterns of one task. -/
def countTaskHits (E : EnergyFn) (U : UpdateFn) (w : Mat) (updateSteps : Nat)
    (task : List NPVec) : Nat :=
  task.countP (fun p => taskHit E U w updateSteps p)

/-- The mutable data learnPatterns works over: the network weights and
state plus the two accumulator lists that the method initialises once,
before the epoch loop (resultStates is never cleared between epochs). -/
structure LPState where
  weights : Mat
  state : Vec
  resultStates : List Vec
  testAccuracies : List ℚ
  deriving DecidableEq

/-- The prediction loop of learnPatterns: for each pattern,
setState(pattern) then relax(updateSteps); the RelaxationException branch
and the normal branch both append getState() to resultStates.  The
patterns were validated at the start of learnPatterns, so the setState
validation cannot fire here. -/
def predLoop (E : EnergyFn) (U : UpdateFn) (w : Mat) (updateSteps : Nat) :
    List NPVec → Vec → List Vec → Vec × List Vec
  | [], st, rs => (st, rs)
  | p :: ps, _, rs =>
    match relaxRun E U w updateSteps p.data with
    | .error s2 => predLoop E U w updateSteps ps s2 (rs ++ [s2])
    | .ok s2 => predLoop E U w updateSteps ps s2 (rs ++ [s2])

/-- The convergence-check loop of learnPatterns: learnedAllPatterns starts
True; a pattern with updateSteps == 0 is skipped by continue; a pattern
whose full relax() raises RelaxationException is skipped by continue; a
pattern that relaxes but does not compareState sets the flag False and
breaks.  Returns the flag and the network state after the loop. -/
def convLoop (E : EnergyFn) (U : UpdateFn) (w : Mat) (maxStepsDefault updateSteps : Nat) :
    List NPVec → Vec → Bool × Vec
  | [], st => (true, st)
  | p :: ps, st =>
    if updateSteps = 0 then convLoop E U w maxStepsDefault updateSteps ps st
    else
      match relaxRun E U w maxStepsDefault p.data with
      | .error s2 => convLoop E U w maxStepsDefault updateSteps ps s2
      | .ok s2 =>
        if compareState s2 p.data then convLoop E U w maxStepsDefault updateSteps ps s2
        else (false, s2)

/-- What the convergence check tests per pattern when updateSteps > 0: a
full relax() that raises is skipped, otherwise the relaxed state must
compare equal to the pattern. -/
def convSkipOrMatch (E : EnergyFn) (U : UpdateFn) (w : Mat) (maxStepsDefault : Nat)
    (p : NPVec) : Bool :=
  match relaxRun E U w maxStepsDefault p.data with
  | .error _ => true
  | .ok s2 => compareState s2 p.data

/-- One epoch of learnPatterns: the optional prediction pass, the weight
replacement by the learning rule, the diagonal zeroing when
self-connections are disabled, the optional measureTestAccuracy call
(whose exceptions propagate, with the mutated object carried in the
error), and the convergence check.  Returns the mutated data and the
learnedAllPatterns flag. -/
def learnEpoch (E : EnergyFn) (U : UpdateFn) (Lr : LearnFn)
    (maxStepsDefault updateSteps : Nat) (selfConnections : Bool) (n : Nat)
    (patterns : List NPVec) (mappings : Option (List (NPVec × Vec)))
    (ls : LPState) : Except (PyErr × LPState) (LPState × Bool) :=
  let pr := if 0 < updateSteps then
      predLoop E U ls.weights updateSteps patterns ls.state ls.resultStates
    else (ls.state, ls.resultStates)
  let w1 := Lr (patterns.map NPVec.data) pr.2 ls.weights
  let w2 := if selfConnections then w1 else fillDiagonal w1 0
  match mappings with
  | none =>
    let cv := convLoop E U w2 maxStepsDefault updateSteps patterns pr.1
    .ok ({ weights := w2, state := cv.2, resultStates := pr.2,
           testAccuracies := ls.testAccuracies }, cv.1)
  | some ms =>
    match mtaLoop E U w2 maxStepsDefault n ms 0 pr.1 with
    | .error e =>
      .error (e, { weights := w2, state := pr.1, resultStates := pr.2,
                   testAccuracies := ls.testAccuracies })
    | .ok (acc, st2) =>
      match pyDiv acc ms.length with
      | .error e =>
        .error (e, { weights := w2, state := st2, resultStates := pr.2,
                     testAccuracies := ls.testAccuracies })
      | .ok frac =>
        let cv := convLoop E U w2 maxStepsDefault updateSteps patterns st2
        .ok ({ weights := w2, state := cv.2, resultStates := pr.2,
               testAccuracies := ls.testAccuracies ++ [frac] }, cv.1)

/-- The epoch loop of learnPatterns over range(maxEpoches): break out as
soon as an epoch reports learnedAllPatterns. -/
def learnLoop (E : EnergyFn) (U : UpdateFn) (Lr : LearnFn)
    (maxStepsDefault updateSteps : Nat) (selfConnections : Bool) (n : Nat)
    (patterns : List NPVec) (mappings : Option (List (NPVec × Vec))) :
    Nat → LPState → Except (PyErr × LPState) LPState
  | 0, ls => .ok ls
  | k + 1, ls =>
    match learnEpoch E U Lr maxStepsDefault updateSteps selfConnections n patterns mappings ls with
    | .error e => .error e
    | .ok (ls2, conv) =>
      if conv then .ok ls2
      else learnLoop E U Lr maxStepsDefault updateSteps selfConnections n patterns mappings k ls2

/-- AbstractHopfieldNetwork.learnPatterns: validate every pattern's shape
and dtype, then run the epoch loop from empty resultStates and
testAccuracies accumulators. -/
def learnPatterns (E : EnergyFn) (U : UpdateFn) (Lr : LearnFn)
    (maxStepsDefault updateSteps maxEpoches : Nat) (selfConnections : Bool)
    (net : HN) (patterns : List NPVec) (mappings : Option (List (NPVec × Vec))) :
    Except (PyErr × LPState) LPState :=
  if patterns.all (validPattern net.N) = false then
    .error (PyErr.valueError,
      { weights := net.weights, state := net.state, resultStates := [], testAccuracies := [] })
  else
    learnLoop E U Lr maxStepsDefault updateSteps selfConnections net.N patterns mappings
      maxEpoches
      { weights := net.weights, state := net.state, resultStates := [], testAccuracies := [] }

/-- The weights held by the network object after learnPatterns, whether it
returned or an exception propagated. -/
def lpWeights (r : Except (PyErr × LPState) LPState) : Mat :=
  match r with
  | .error (_, ls) => ls.weights
  | .ok ls => ls.weights

/-- The weights held by the network object after one epoch body, whether
it completed or an exception propagated. -/
def epochWeights (r : Except (PyErr × LPState) (LPState × Bool)) : Mat :=
  match r with
  | .error (_, ls) => ls.weights
  | .ok (ls, _) => ls.weights

/-- Every row of the matrix has length n. -/
def rowLens (n : Nat) (m : Mat) : Prop := ∀ row ∈ m, row.length = n

/-- An n-by-n matrix. -/
def IsMat (n : Nat) (m : Mat) : Prop := m.length = n ∧ rowLens n m

/-- One summand of the Delta rule: 0.5 times the outer product of
(pattern_i - resultState_i) with pattern_i. -/
def deltaTerm (patterns resultStates : List Vec) (i : Nat) : Mat :=
  smulMat (1 / 2)
    (outer (vecSub (patterns.getD i []) (resultStates.getD i [])) (patterns.getD i []))

/-- The weights produced by the weight-replacement phase of one epoch:
the learning rule's output, diagonal zeroed unless self-connections are
enabled. -/
def epochNewWeights (E : EnergyFn) (U : UpdateFn) (Lr : LearnFn) (updateSteps : Nat)
    (selfConnections : Bool) (patterns : List NPVec) (ls : LPState) : Mat :=
  let pr2 := if 0 < updateSteps then
      (predLoop E U ls.weights updateSteps patterns ls.state ls.resultStates).2
    else ls.resultStates
  let w1 := Lr (patterns.map NPVec.data) pr2 ls.weights
  if selfConnections then w1 else fillDiagonal w1 0

/-- Unfolding compareState into the two elementwise comparisons it takes,
with -1 * x rewritten to -x. -/
lemma compareState_iff (a b : Vec) :
    compareState a b = true ↔ (a = b ∨ a.map (fun x => -x) = b) := by
  simp [compareState, neg_one_mul]

/-- C1.  The claim reads relax as stepping exactly while some unit has
strictly positive energy and as returning only with all unit energies at
most 0.  The source loop is `while np.any(self.unitEnergies() <= 0)`, the
opposite: on the one-unit bipolar network with weights -1 every energy is
1, strictly positive, yet relax returns at once without a step; and on
the all-zero weights every energy is 0, at most 0, yet relax keeps
stepping until it raises.  This contradicts the relax docstring (update
until a stable state is found) and the unitEnergies docstring (energy
below 0 means stable). -/
theorem relax_returns_only_when_all_energies_positive :
    relaxRun bipolarEnergy idUpdate [[-1]] 5 [1] = Except.ok [1]
    ∧ bipolarEnergy [1] [[-1]] = [1]
    ∧ (0 : ℚ) < 1
    ∧ relaxRun bipolarEnergy idUpdate [[0]] 5 [1] = Except.error [1]
    ∧ bipolarEnergy [1] [[0]] = [0] := by
  refine ⟨?_, ?_, by norm_num, ?_, ?_⟩ <;> with_unfolding_all rfl

/-- If the relax loop raises with budget r, the state it leaves behind is
exactly r update steps applied to the starting state. -/
lemma relaxGo_error_iterate (E : EnergyFn) (U : UpdateFn) (w : Mat) :
    ∀ (r : Nat) (s s2 : Vec), relaxGo E U w r s = Except.error s2 →
      s2 = (stepFn U w)^[r] s := by
  intro r
  induction r with
  | zero =>
    intro s s2 h
    simp only [relaxGo] at h
    split at h
    · cases h
      rfl
    · cases h
  | succ r ih =>
    intro s s2 h
    simp only [relaxGo] at h
    split at h
    · have h2 := ih (U s w) s2 h
      rw [h2, Function.iterate_succ_apply]
      rfl
    · cases h

/-- C7.  When relax raises RelaxationException (with or without an
explicit maxSteps; when unset the update rule's MAX_STEPS is used), the
network state at the moment the exception propagates is the output of the
last computed update step, namely the (maxSteps + 1)-th iterate of the
update rule from the starting state: nothing is rolled back. -/
theorem relax_exhaustion_state_not_rolled_back (E : EnergyFn) (U : UpdateFn) (w : Mat)
    (maxStepsDefault : Nat) (maxSteps : Option Nat) (s s2 : Vec)
    (h : relaxCall E U w maxStepsDefault maxSteps s = Except.error s2) :
    s2 = (stepFn U w)^[maxSteps.getD maxStepsDefault + 1] s
    ∧ s2 = stepFn U w ((stepFn U w)^[maxSteps.getD maxStepsDefault] s) := by
  have h1 := relaxGo_error_iterate E U w (maxSteps.getD maxStepsDefault + 1) s s2 h
  exact ⟨h1, by rw [h1, Function.iterate_succ_apply']⟩

/-- Witness for C7: on the one-unit zero-weight network with the
increment update rule and maxSteps = 1, relax raises and leaves state
[2], which is the last computed update step from [1] = one step from [0]. -/
theorem relax_exhaustion_state_not_rolled_back_witness :
    relaxCall bipolarEnergy incrUpdate [[0]] 9 (some 1) [0] = Except.error [2]
    ∧ ([2] : Vec) = stepFn incrUpdate [[0]] ((stepFn incrUpdate [[0]])^[1] [0]) :=
  ⟨by with_unfolding_all rfl,
    (relax_exhaustion_state_not_rolled_back bipolarEnergy incrUpdate [[0]] 9
      (some 1) [0] [2] (by with_unfolding_all rfl)).2⟩

/-- C6.  setState (the GeneralHopfieldNetwork override, which copies the
argument and delegates to the abstract validator) raises ValueError on a
vector of the wrong length or the wrong dtype, and the network object,
hence getState(), is exactly what it was before the call: both raises
precede the assignment to self.state. -/
theorem setState_invalid_leaves_state (net : HN) (v : NPVec)
    (h : v.data.length ≠ net.N ∨ v.isFloat64 = false) :
    (setStateGeneralNet net v).2 = some PyErr.valueError
    ∧ getState (setStateGeneralNet net v).1 = getState net
    ∧ (setStateGeneralNet net v).1 = net := by
  unfold setStateGeneralNet setStateNet
  have hc : npCopy v = v := rfl
  rw [hc]
  rcases h with h | h
  · rw [if_pos h]
    exact ⟨rfl, rfl, rfl⟩
  · by_cases h2 : v.data.length ≠ net.N
    · rw [if_pos h2]
      exact ⟨rfl, rfl, rfl⟩
    · rw [if_neg h2, if_pos h]
      exact ⟨rfl, rfl, rfl⟩

/-- Witness for C6: setState with a length-1 vector on a 2-unit network
fails with ValueError and getState afterwards is still [1, 1]. -/
theorem setState_invalid_leaves_state_witness :
    (setStateGeneralNet { N := 2, weights := [[0, 0], [0, 0]], state := [1, 1] }
        { data := [1], isFloat64 := true }).2 = some PyErr.valueError
    ∧ getState (setStateGeneralNet { N := 2, weights := [[0, 0], [0, 0]], state := [1, 1] }
        { data := [1], isFloat64 := true }).1 = [1, 1] :=
  ⟨(setState_invalid_leaves_state { N := 2, weights := [[0, 0], [0, 0]], state := [1, 1] }
      { data := [1], isFloat64 := true } (Or.inl (by decide))).1,
    ((setState_invalid_leaves_state { N := 2, weights := [[0, 0], [0, 0]], state := [1, 1] }
      { data := [1], isFloat64 := true } (Or.inl (by decide))).2.1).trans rfl⟩

/-- C8 counterexample.  The claim says that changing the sign of exactly
one unit of any bipolar state makes compareState false, but on the
one-unit state [1] the flipped vector is [-1], the elementwise negation,
and compareState accepts it. -/
theorem compareState_single_unit_flip_counterexample :
    isBipolar [(1 : ℚ)] ∧ compareState [(1 : ℚ)] (flipAt [1] 0) = true := by
  constructor
  · norm_num [isBipolar]
  · with_unfolding_all rfl

/-- C8 amended.  compareState accepts exactly the equal vector and the
elementwise negation; every state is accepted against itself and its
negation; and on a bipolar state with at least two units, changing the
sign of exactly one unit is rejected (on a one-unit state the flip equals
the negation and is accepted, see the counterexample). -/
theorem compareState_sign_symmetry_and_flip :
    (∀ a b : Vec, compareState a b = true ↔ (a = b ∨ a.map (fun x => -x) = b))
    ∧ (∀ s : Vec, compareState s s = true ∧ compareState s (s.map (fun x => -x)) = true)
    ∧ (∀ s : Vec, isBipolar s → 2 ≤ s.length → ∀ i, i < s.length →
        compareState s (flipAt s i) = false) := by
  refine ⟨compareState_iff, ?_, ?_⟩
  · intro s
    refine ⟨by simp [compareState], ?_⟩
    rw [compareState_iff]
    right
    rfl
  · intro s hb hlen i hi
    have hgd : s.getD i 0 = s[i] := by
      rw [List.getD_eq_getElem?_getD, List.getElem?_eq_getElem hi]
      rfl
    have hval : s[i] = 1 ∨ s[i] = -1 := hb _ (List.getElem_mem hi)
    have hilen : i < (flipAt s i).length := by simpa [flipAt] using hi
    have hflip_i : (flipAt s i)[i] = -1 * s[i] := by
      rw [← hgd]
      exact List.getElem_set_self hilen
    rw [Bool.eq_false_iff]
    intro htrue
    rcases (compareState_iff _ _).1 htrue with h | h
    · have hcg := congrArg (fun l => l[i]?) h
      simp only [List.getElem?_eq_getElem hi, List.getElem?_eq_getElem hilen] at hcg
      have hx : s[i] = -1 * s[i] := by
        rw [← hflip_i]
        exact Option.some.inj hcg
      rcases hval with hv | hv <;> rw [hv] at hx <;> norm_num at hx
    · obtain ⟨j, hj, hji⟩ : ∃ j, j < s.length ∧ i ≠ j := by
        rcases Nat.eq_zero_or_pos i with h0 | h0
        · exact ⟨1, by omega, by omega⟩
        · exact ⟨0, by omega, by omega⟩
      have hjm : j < (s.map (fun x => -x)).length := by simpa using hj
      have hjf : j < (flipAt s i).length := by simpa [flipAt] using hj
      have hcg := congrArg (fun l => l[j]?) h
      simp only [List.getElem?_eq_getElem hjm, List.getElem?_eq_getElem hjf] at hcg
      have hx := Option.some.inj hcg
      rw [List.getElem_map] at hx
      have hset : (flipAt s i)[j] = s[j] := List.getElem_set_ne hji hjf
      rw [hset] at hx
      have hz : s[j] = 0 := by linarith
      rcases hb _ (List.getElem_mem hj) with hv | hv <;> rw [hv] at hz <;> norm_num at hz

/-- Witness for C8 amended: on the two-unit bipolar state [1, -1],
flipping unit 0 is rejected by compareState. -/
theorem compareState_sign_symmetry_and_flip_witness :
    isBipolar [(1 : ℚ), -1]
    ∧ compareState [(1 : ℚ), -1] (flipAt [(1 : ℚ), -1] 0) = false :=
  ⟨by norm_num [isBipolar],
    compareState_sign_symmetry_and_flip.2.2 [(1 : ℚ), -1] (by norm_num [isBipolar])
      (by norm_num) 0 (by norm_num)⟩

lemma getD_lt {α : Type} (l : List α) (d : α) {i : Nat} (h : i < l.length) :
    l.getD i d = l[i] := by
  rw [List.getD_eq_getElem?_getD, List.getElem?_eq_getElem h]
  rfl

lemma getD_mem_of_lt {α : Type} (l : List α) (d : α) {i : Nat} (h : i < l.length) :
    l.getD i d ∈ l := by
  rw [getD_lt l d h]
  exact List.getElem_mem h

lemma vecAdd_assoc (a : Vec) : ∀ b c : Vec, vecAdd (vecAdd a b) c = vecAdd a (vecAdd b c) := by
  induction a with
  | nil => intro b c; simp [vecAdd]
  | cons x xs ih =>
    intro b c
    cases b with
    | nil => simp [vecAdd]
    | cons y ys =>
      cases c with
      | nil => simp [vecAdd]
      | cons z zs =>
        have h2 := ih ys zs
        simp only [vecAdd, List.zipWith_cons_cons] at h2 ⊢
        rw [add_assoc, h2]

lemma matAdd_assoc (a : Mat) : ∀ b c : Mat, matAdd (matAdd a b) c = matAdd a (matAdd b c) := by
  induction a with
  | nil => intro b c; simp [matAdd]
  | cons x xs ih =>
    intro b c
    cases b with
    | nil => simp [matAdd]
    | cons y ys =>
      cases c with
      | nil => simp [matAdd]
      | cons z zs =>
        have h2 := ih ys zs
        simp only [matAdd, List.zipWith_cons_cons] at h2 ⊢
        rw [vecAdd_assoc, h2]

lemma vecAdd_zero_right (a : Vec) : vecAdd a (List.replicate a.length 0) = a := by
  induction a with
  | nil => rfl
  | cons x xs ih => simp [vecAdd, List.replicate] at ih ⊢; exact ih

lemma matAdd_replicate_right (m : Mat) (z : Vec) (h : ∀ row ∈ m, vecAdd row z = row) :
    matAdd m (List.replicate m.length z) = m := by
  induction m with
  | nil => rfl
  | cons r rs ih =>
    simp only [List.length_cons, List.replicate, matAdd, List.zipWith_cons_cons]
    rw [h r (List.mem_cons_self r rs)]
    have := ih (fun row hrow => h row (List.mem_cons_of_mem r hrow))
    simp only [matAdd] at this
    rw [this]

lemma matAdd_zeroMat_right {n : Nat} {m : Mat} (h : IsMat n m) : matAdd m (zeroMat n) = m := by
  obtain ⟨hlen, hrows⟩ := h
  have : zeroMat n = List.replicate m.length (List.replicate n 0) := by rw [hlen]; rfl
  rw [this]
  apply matAdd_replicate_right
  intro row hrow
  have := vecAdd_zero_right row
  rwa [hrows row hrow] at this

lemma vecAdd_length (a b : Vec) : (vecAdd a b).length = min a.length b.length := by
  simp [vecAdd]

lemma rowLens_matAdd {n : Nat} (a : Mat) : ∀ (b : Mat), rowLens n a → rowLens n b →
    rowLens n (matAdd a b) := by
  induction a with
  | nil => intro b _ _ row hrow; simp [matAdd] at hrow
  | cons r rs ih =>
    intro b ha hb
    cases b with
    | nil => intro row hrow; simp [matAdd] at hrow
    | cons q qs =>
      intro row hrow
      simp only [matAdd, List.zipWith_cons_cons, List.mem_cons] at hrow
      rcases hrow with hrow | hrow
      · rw [hrow, vecAdd_length, ha r (List.mem_cons_self r rs), hb q (List.mem_cons_self q qs)]
        exact Nat.min_self n
      · exact ih qs (fun row hr => ha row (List.mem_cons_of_mem r hr))
          (fun row hr => hb row (List.mem_cons_of_mem q hr)) row hrow

lemma isMat_matAdd {n : Nat} {a b : Mat} (ha : IsMat n a) (hb : IsMat n b) :
    IsMat n (matAdd a b) := by
  refine ⟨?_, rowLens_matAdd a b ha.2 hb.2⟩
  simp [matAdd, ha.1, hb.1]

lemma isMat_zeroMat (n : Nat) : IsMat n (zeroMat n) := by
  constructor
  · simp [zeroMat]
  · intro row hrow
    rw [List.eq_of_mem_replicate hrow]
    simp

lemma isMat_foldr_matAdd {n : Nat} (l : List Mat) (h : ∀ m ∈ l, IsMat n m) :
    IsMat n (l.foldr matAdd (zeroMat n)) := by
  induction l with
  | nil => exact isMat_zeroMat n
  | cons m ms ih =>
    exact isMat_matAdd (h m (List.mem_cons_self m ms))
      (ih (fun x hx => h x (List.mem_cons_of_mem m hx)))

lemma foldl_matAdd_eq_foldr {n : Nat} (l : List Mat) : ∀ (B : Mat), IsMat n B →
    (∀ m ∈ l, IsMat n m) →
    l.foldl matAdd B = matAdd B (l.foldr matAdd (zeroMat n)) := by
  induction l with
  | nil =>
    intro B hB _
    simp only [List.foldl_nil, List.foldr_nil]
    exact (matAdd_zeroMat_right hB).symm
  | cons m ms ih =>
    intro B hB h
    simp only [List.foldl_cons, List.foldr_cons]
    rw [ih (matAdd B m) (isMat_matAdd hB (h m (List.mem_cons_self m ms)))
      (fun x hx => h x (List.mem_cons_of_mem m hx))]
    rw [matAdd_assoc]

lemma zerosLike_eq_replicate {n : Nat} (m : Mat) (hrows : rowLens n m) :
    zerosLike m = List.replicate m.length (List.replicate n 0) := by
  induction m with
  | nil => rfl
  | cons r rs ih =>
    simp only [zerosLike, List.map_cons, List.length_cons, List.replicate] at ih ⊢
    rw [ih (fun row hr => hrows row (List.mem_cons_of_mem r hr))]
    have hr : r.map (fun _ => (0 : ℚ)) = List.replicate r.length 0 := by
      induction r with
      | nil => rfl
      | cons x xs ihx => simp [List.replicate]
    rw [hr, hrows r (List.mem_cons_self r rs)]

lemma zerosLike_eq_zeroMat {n : Nat} {m : Mat} (h : IsMat n m) : zerosLike m = zeroMat n := by
  rw [zerosLike_eq_replicate m h.2, h.1]
  rfl

lemma vecAdd_zero_left (a : Vec) : vecAdd (List.replicate a.length 0) a = a := by
  induction a with
  | nil => rfl
  | cons x xs ih => simp [vecAdd, List.replicate] at ih ⊢; exact ih

lemma matAdd_replicate_left (m : Mat) (z : Vec) (h : ∀ row ∈ m, vecAdd z row = row) :
    matAdd (List.replicate m.length z) m = m := by
  induction m with
  | nil => rfl
  | cons r rs ih =>
    simp only [List.length_cons, List.replicate, matAdd, List.zipWith_cons_cons]
    rw [h r (List.mem_cons_self r rs)]
    have := ih (fun row hrow => h row (List.mem_cons_of_mem r hrow))
    simp only [matAdd] at this
    rw [this]

lemma matAdd_zeroMat_left {n : Nat} {m : Mat} (h : IsMat n m) : matAdd (zeroMat n) m = m := by
  obtain ⟨hlen, hrows⟩ := h
  have hz : zeroMat n = List.replicate m.length (List.replicate n 0) := by rw [hlen]; rfl
  rw [hz]
  apply matAdd_replicate_left
  intro row hrow
  have := vecAdd_zero_left row
  rwa [hrows row hrow] at this

lemma vecSub_length (a b : Vec) : (vecSub a b).length = min a.length b.length := by
  simp [vecSub]

lemma isMat_outer {n : Nat} {a b : Vec} (ha : a.length = n) (hb : b.length = n) :
    IsMat n (outer a b) := by
  constructor
  · simp [outer, ha]
  · intro row hrow
    simp only [outer, List.mem_map] at hrow
    obtain ⟨x, _, rfl⟩ := hrow
    simp [hb]

lemma isMat_smulMat {n : Nat} (c : ℚ) {m : Mat} (h : IsMat n m) : IsMat n (smulMat c m) := by
  constructor
  · simp [smulMat, h.1]
  · intro row hrow
    simp only [smulMat, List.mem_map] at hrow
    obtain ⟨r, hr, rfl⟩ := hrow
    simp [h.2 r hr]

/-- C9.  On equal-length pattern and resultState lists of n-vectors and an
n-by-n weight matrix, the Delta rule returns exactly the old weights plus
the sum over all pattern indices of 0.5 times the outer product of
(pattern_i - resultState_i) with pattern_i; and the rule is configured
with updateSteps = 1 > 0, so learnPatterns feeds it the network's relaxed
predictions. -/
theorem delta_rule_error_correction (n : Nat) (patterns resultStates : List Vec)
    (weights : Mat) (hlen : patterns.length = resultStates.length)
    (hp : ∀ p ∈ patterns, p.length = n) (hr : ∀ r ∈ resultStates, r.length = n)
    (hw : IsMat n weights) :
    deltaCall patterns resultStates weights
      = matAdd weights
          (((List.range patterns.length).map (deltaTerm patterns resultStates)).foldr
            matAdd (zeroMat n))
    ∧ deltaUpdateSteps = 1 ∧ 0 < deltaUpdateSteps := by
  refine ⟨?_, rfl, Nat.one_pos⟩
  have hterm : ∀ m ∈ (List.range patterns.length).map (deltaTerm patterns resultStates),
      IsMat n m := by
    intro m hm
    rw [List.mem_map] at hm
    obtain ⟨i, hi, rfl⟩ := hm
    rw [List.mem_range] at hi
    have hpi : (patterns.getD i []).length = n := hp _ (getD_mem_of_lt patterns [] hi)
    have hri : (resultStates.getD i []).length = n :=
      hr _ (getD_mem_of_lt resultStates [] (hlen ▸ hi))
    have hsub : (vecSub (patterns.getD i []) (resultStates.getD i [])).length = n := by
      rw [vecSub_length, hpi, hri, Nat.min_self]
    exact isMat_smulMat _ (isMat_outer hsub hpi)
  have hcode : deltaCall patterns resultStates weights
      = matAdd weights ((List.range patterns.length).foldl
          (fun wc i => matAdd wc (deltaTerm patterns resultStates i)) (zerosLike weights)) := rfl
  rw [hcode, ← List.foldl_map (deltaTerm patterns resultStates) matAdd,
    zerosLike_eq_zeroMat hw,
    foldl_matAdd_eq_foldr _ _ (isMat_zeroMat n) hterm,
    matAdd_zeroMat_left (isMat_foldr_matAdd _ hterm)]

/-- Witness for C9: the Delta rule on one pattern [1, 1] with prediction
[1, -1] and zero weights equals the stated sum form. -/
theorem delta_rule_error_correction_witness :
    deltaCall [[1, 1]] [[1, -1]] [[0, 0], [0, 0]]
      = matAdd [[0, 0], [0, 0]]
          (((List.range 1).map (deltaTerm [[1, 1]] [[1, -1]])).foldr matAdd (zeroMat 2))
    ∧ deltaUpdateSteps = 1 ∧ 0 < deltaUpdateSteps :=
  delta_rule_error_correction 2 [[1, 1]] [[1, -1]] [[0, 0], [0, 0]] rfl
    (by intro p hp; rw [List.mem_singleton] at hp; rw [hp]; rfl)
    (by intro r hr; rw [List.mem_singleton] at hr; rw [hr]; rfl)
    (by
      refine ⟨rfl, ?_⟩
      intro row hrow
      simp only [List.mem_cons, List.not_mem_nil, or_false] at hrow
      rcases hrow with h | h <;> subst h <;> rfl)

lemma enumMap_getD {α β : Type} (f : Nat → α → β) (d : β) :
    ∀ (l : List α) (k i : Nat), (enumMap f k l).getD i d
      = if h : i < l.length then f (k + i) l[i] else d := by
  intro l
  induction l with
  | nil => intro k i; simp [enumMap]
  | cons a as ih =>
    intro k i
    cases i with
    | zero => simp [enumMap]
    | succ j =>
      have hL : (enumMap f k (a :: as)).getD (j + 1) d = (enumMap f (k + 1) as).getD j d := by
        simp [enumMap]
      rw [hL, ih (k + 1) j]
      by_cases h : j < as.length
      · rw [dif_pos h, dif_pos (show j + 1 < (a :: as).length by simp; omega)]
        have harg : k + 1 + j = k + (j + 1) := by omega
        rw [List.getElem_cons_succ, harg]
      · rw [dif_neg h, dif_neg (show ¬(j + 1 < (a :: as).length) by simp; omega)]

/-- After np.fill_diagonal(m, 0), every diagonal entry reads as 0. -/
lemma fillDiagonal_diag (m : Mat) (i : Nat) : matGet (fillDiagonal m 0) i i = 0 := by
  unfold matGet fillDiagonal
  rw [enumMap_getD]
  by_cases h : i < m.length
  · rw [dif_pos h, enumMap_getD]
    by_cases h2 : i < (m[i]).length
    · rw [dif_pos h2]
      simp
    · rw [dif_neg h2]
  · rw [dif_neg h]
    simp

/-- Whatever learnEpoch returns, normally or with a propagating exception,
the weights it carries are exactly the weight-replacement phase's output:
the measurement and convergence phases do not touch the weights. -/
lemma epochWeights_learnEpoch (E : EnergyFn) (U : UpdateFn) (Lr : LearnFn)
    (maxStepsDefault updateSteps : Nat) (selfConnections : Bool) (n : Nat)
    (patterns : List NPVec) (mappings : Option (List (NPVec × Vec))) (ls : LPState) :
    epochWeights (learnEpoch E U Lr maxStepsDefault updateSteps selfConnections n
        patterns mappings ls)
      = epochNewWeights E U Lr updateSteps selfConnections patterns ls := by
  by_cases h0 : 0 < updateSteps
  · simp only [learnEpoch, epochNewWeights, if_pos h0]
    cases mappings with
    | none => rfl
    | some ms =>
      dsimp only
      split
      · rfl
      · split
        · rfl
        · rfl
  · simp only [learnEpoch, epochNewWeights, if_neg h0]
    cases mappings with
    | none => rfl
    | some ms =>
      dsimp only
      split
      · rfl
      · split
        · rfl
        · rfl

/-- With self-connections disabled, the weight-replacement phase always
leaves a zero diagonal, whatever the learning rule returned. -/
lemma epochNewWeights_diag (E : EnergyFn) (U : UpdateFn) (Lr : LearnFn) (updateSteps : Nat)
    (patterns : List NPVec) (ls : LPState) (i : Nat) :
    matGet (epochNewWeights E U Lr updateSteps false patterns ls) i i = 0 := by
  simp only [epochNewWeights, Bool.false_eq_true, if_false]
  exact fillDiagonal_diag _ i

/-- With self-connections disabled, the weights carried out of a learnLoop
run of at least one epoch have a zero diagonal, normally or with a
propagating exception. -/
lemma learnLoop_diag (E : EnergyFn) (U : UpdateFn) (Lr : LearnFn)
    (maxStepsDefault updateSteps : Nat) (n : Nat) (patterns : List NPVec)
    (mappings : Option (List (NPVec × Vec))) :
    ∀ (k : Nat) (ls : LPState) (i : Nat),
      matGet (lpWeights (learnLoop E U Lr maxStepsDefault updateSteps false n patterns
        mappings (k + 1) ls)) i i = 0 := by
  intro k
  induction k with
  | zero =>
    intro ls i
    have hw := epochWeights_learnEpoch E U Lr maxStepsDefault updateSteps false n
      patterns mappings ls
    simp only [learnLoop]
    cases hep : learnEpoch E U Lr maxStepsDefault updateSteps false n patterns mappings ls with
    | error e =>
      obtain ⟨e1, e2⟩ := e
      rw [hep] at hw
      simp only [epochWeights] at hw
      simp only [lpWeights]
      rw [hw]
      exact epochNewWeights_diag E U Lr updateSteps patterns ls i
    | ok p =>
      obtain ⟨ls2, conv⟩ := p
      rw [hep] at hw
      simp only [epochWeights] at hw
      dsimp only
      rw [ite_self]
      simp only [lpWeights]
      rw [hw]
      exact epochNewWeights_diag E U Lr updateSteps patterns ls i
  | succ k ih =>
    intro ls i
    have hw := epochWeights_learnEpoch E U Lr maxStepsDefault updateSteps false n
      patterns mappings ls
    simp only [learnLoop]
    cases hep : learnEpoch E U Lr maxStepsDefault updateSteps false n patterns mappings ls with
    | error e =>
      obtain ⟨e1, e2⟩ := e
      rw [hep] at hw
      simp only [epochWeights] at hw
      simp only [lpWeights]
      rw [hw]
      exact epochNewWeights_diag E U Lr updateSteps patterns ls i
    | ok p =>
      obtain ⟨ls2, conv⟩ := p
      rw [hep] at hw
      simp only [epochWeights] at hw
      dsimp only
      cases conv with
      | true =>
        rw [if_pos rfl]
        simp only [lpWeights]
        rw [hw]
        exact epochNewWeights_diag E U Lr updateSteps patterns ls i
      | false =>
        rw [if_neg (by simp)]
        exact ih ls2 i

/-- C5.  With self-connections disabled (the default), immediately after
each epoch's weight replacement inside learnPatterns the weight matrix
has a zero diagonal, whatever the LearningRule returned: the weights an
epoch carries are always the rule's output with the diagonal zeroed, and
after any learnPatterns run of at least one epoch on validly shaped
patterns the network weights have a zero diagonal. -/
theorem self_connections_disabled_zero_diagonal :
    (∀ (E : EnergyFn) (U : UpdateFn) (Lr : LearnFn) (maxStepsDefault updateSteps n : Nat)
        (patterns : List NPVec) (mappings : Option (List (NPVec × Vec))) (ls : LPState)
        (i : Nat),
      matGet (epochWeights (learnEpoch E U Lr maxStepsDefault updateSteps false n
        patterns mappings ls)) i i = 0)
    ∧ (∀ (E : EnergyFn) (U : UpdateFn) (Lr : LearnFn)
        (maxStepsDefault updateSteps maxEpoches : Nat) (net : HN) (patterns : List NPVec)
        (mappings : Option (List (NPVec × Vec))),
        0 < maxEpoches → patterns.all (validPattern net.N) = true →
        ∀ i, matGet (lpWeights (learnPatterns E U Lr maxStepsDefault updateSteps maxEpoches
          false net patterns mappings)) i i = 0) := by
  constructor
  · intro E U Lr maxStepsDefault updateSteps n patterns mappings ls i
    rw [epochWeights_learnEpoch]
    exact epochNewWeights_diag E U Lr updateSteps patterns ls i
  · intro E U Lr maxStepsDefault updateSteps maxEpoches net patterns mappings hm hv i
    unfold learnPatterns
    rw [if_neg (by simp [hv])]
    obtain ⟨k, rfl⟩ : ∃ k, maxEpoches = k + 1 := ⟨maxEpoches - 1, by omega⟩
    exact learnLoop_diag E U Lr maxStepsDefault updateSteps net.N patterns mappings k _ i

/-- Witness for C5: a learning rule that returns an all-fives matrix still
leaves a zero diagonal after learnPatterns with self-connections off. -/
theorem self_connections_disabled_zero_diagonal_witness :
    matGet (lpWeights (learnPatterns bipolarEnergy idUpdate (fun _ _ _ => [[5, 5], [5, 5]])
      1 0 1 false { N := 2, weights := [[1, 2], [3, 4]], state := [1, 1] } [] none)) 0 0 = 0 :=
  self_connections_disabled_zero_diagonal.2 bipolarEnergy idUpdate (fun _ _ _ => [[5, 5], [5, 5]])
    1 0 1 { N := 2, weights := [[1, 2], [3, 4]], state := [1, 1] } [] none
    (by norm_num) rfl 0

lemma convLoop_flag_zero (E : EnergyFn) (U : UpdateFn) (w : Mat) (maxStepsDefault : Nat) :
    ∀ (ps : List NPVec) (st : Vec), (convLoop E U w maxStepsDefault 0 ps st).1 = true := by
  intro ps
  induction ps with
  | nil => intro st; rfl
  | cons p ps ih =>
    intro st
    simp only [convLoop, if_true]
    exact ih st

lemma convLoop_flag_pos (E : EnergyFn) (U : UpdateFn) (w : Mat)
    (maxStepsDefault updateSteps : Nat) (hu : 0 < updateSteps) :
    ∀ (ps : List NPVec) (st : Vec),
      (convLoop E U w maxStepsDefault updateSteps ps st).1
        = ps.all (convSkipOrMatch E U w maxStepsDefault) := by
  intro ps
  induction ps with
  | nil => intro st; rfl
  | cons p ps ih =>
    intro st
    simp only [convLoop, List.all_cons]
    rw [if_neg (by omega)]
    cases hr : relaxRun E U w maxStepsDefault p.data with
    | error s2 =>
      dsimp only
      rw [ih s2]
      simp [convSkipOrMatch, hr]
    | ok s2 =>
      dsimp only
      cases hc : compareState s2 p.data with
      | true =>
        rw [if_pos rfl, ih s2]
        simp [convSkipOrMatch, hr, hc]
      | false =>
        rw [if_neg (by simp)]
        simp [convSkipOrMatch, hr, hc]

/-- With a single-shot rule (updateSteps = 0) every epoch reports
learnedAllPatterns = true: the convergence check skips every pattern and
the flag keeps its initial True. -/
lemma learnEpoch_conv_zero (E : EnergyFn) (U : UpdateFn) (Lr : LearnFn)
    (maxStepsDefault : Nat) (selfConnections : Bool) (n : Nat) (ps : List NPVec)
    (mp : Option (List (NPVec × Vec))) (ls ls2 : LPState) (b : Bool)
    (h : learnEpoch E U Lr maxStepsDefault 0 selfConnections n ps mp ls
      = Except.ok (ls2, b)) : b = true := by
  unfold learnEpoch at h
  rw [if_neg (by omega)] at h
  cases mp with
  | none =>
    simp only [Except.ok.injEq, Prod.mk.injEq] at h
    rw [← h.2]
    exact convLoop_flag_zero E U _ maxStepsDefault ps _
  | some ms =>
    dsimp only at h
    split at h
    · cases h
    · split at h
      · cases h
      · simp only [Except.ok.injEq, Prod.mk.injEq] at h
        rw [← h.2]
        exact convLoop_flag_zero E U _ maxStepsDefault ps _

/-- C3 amended.  With a single-shot rule (updateSteps = 0) the per-pattern
convergence tests are all skipped by continue, so learnedAllPatterns stays
True and the epoch loop breaks at the end of the first epoch: learnPatterns
with any maxEpochs of at least 1 behaves exactly like maxEpochs = 1, rather
than running the full maxEpochs epochs. -/
theorem single_shot_stops_after_first_epoch (E : EnergyFn) (U : UpdateFn) (Lr : LearnFn)
    (maxStepsDefault maxEpoches : Nat) (selfConnections : Bool) (net : HN)
    (patterns : List NPVec) (mappings : Option (List (NPVec × Vec)))
    (hm : 0 < maxEpoches) :
    learnPatterns E U Lr maxStepsDefault 0 maxEpoches selfConnections net patterns mappings
      = learnPatterns E U Lr maxStepsDefault 0 1 selfConnections net patterns mappings := by
  unfold learnPatterns
  by_cases hv : patterns.all (validPattern net.N) = false
  · rw [if_pos hv, if_pos hv]
  · rw [if_neg hv, if_neg hv]
    obtain ⟨k, rfl⟩ : ∃ k, maxEpoches = k + 1 := ⟨maxEpoches - 1, by omega⟩
    simp only [learnLoop]
    cases hep : learnEpoch E U Lr maxStepsDefault 0 selfConnections net.N patterns mappings
      { weights := net.weights, state := net.state, resultStates := [],
        testAccuracies := [] } with
    | error e => rfl
    | ok p =>
      obtain ⟨ls2, conv⟩ := p
      have hb := learnEpoch_conv_zero E U Lr maxStepsDefault selfConnections net.N patterns
        mappings _ ls2 conv hep
      subst hb
      rfl

/-- Witness for C3 amended: a two-epoch single-shot run equals the
one-epoch run on a concrete network. -/
theorem single_shot_stops_after_first_epoch_witness :
    learnPatterns bipolarEnergy idUpdate (fun _ _ w => matAdd w [[0, 1], [0, 0]]) 3 0 2 false
      { N := 2, weights := [[0, 0], [0, 0]], state := [1, 1] }
      [{ data := [1, 1], isFloat64 := true }] none
    = learnPatterns bipolarEnergy idUpdate (fun _ _ w => matAdd w [[0, 1], [0, 0]]) 3 0 1 false
      { N := 2, weights := [[0, 0], [0, 0]], state := [1, 1] }
      [{ data := [1, 1], isFloat64 := true }] none :=
  single_shot_stops_after_first_epoch bipolarEnergy idUpdate
    (fun _ _ w => matAdd w [[0, 1], [0, 0]]) 3 2 false
    { N := 2, weights := [[0, 0], [0, 0]], state := [1, 1] }
    [{ data := [1, 1], isFloat64 := true }] none (by norm_num)

/-- C3 counterexample.  The claim says a single-shot rule runs the full
maxEpochs epochs.  On a concrete 2-unit network with a counting rule that
adds 1 to entry (0,1) each epoch and maxEpochs = 2, learnPatterns leaves
(0,1) at 1 (one epoch ran), while a genuine second epoch would leave 2. -/
theorem single_shot_runs_full_epochs_counterexample :
    lpWeights (learnPatterns bipolarEnergy idUpdate
        (fun _ _ w => matAdd w [[0, 1], [0, 0]]) 3 0 2 false
        { N := 2, weights := [[0, 0], [0, 0]], state := [1, 1] }
        [{ data := [1, 1], isFloat64 := true }] none) = [[0, 1], [0, 0]]
    ∧ epochWeights (learnEpoch bipolarEnergy idUpdate
        (fun _ _ w => matAdd w [[0, 1], [0, 0]]) 3 0 false 2
        [{ data := [1, 1], isFloat64 := true }] none
        { weights := [[0, 1], [0, 0]], state := [1, 1], resultStates := [],
          testAccuracies := [] }) = [[0, 2], [0, 0]]
    ∧ ([[0, 1], [0, 0]] : Mat) ≠ [[0, 2], [0, 0]] := by
  refine ⟨by with_unfolding_all rfl, by with_unfolding_all rfl, by simp⟩

/-- C4 amended.  In the convergence check with updateSteps > 0, a pattern
whose full relax() raises RelaxationException is skipped by continue and
so does not block early stopping: the epoch's learnedAllPatterns flag is
true iff every pattern either fails to relax (exception, treated as
converged) or relaxes to a state that compareState accepts. -/
theorem convergence_check_skips_exhausted_patterns (E : EnergyFn) (U : UpdateFn)
    (Lr : LearnFn) (maxStepsDefault updateSteps : Nat) (selfConnections : Bool) (n : Nat)
    (ps : List NPVec) (mp : Option (List (NPVec × Vec))) (ls ls2 : LPState) (b : Bool)
    (hu : 0 < updateSteps)
    (h : learnEpoch E U Lr maxStepsDefault updateSteps selfConnections n ps mp ls
      = Except.ok (ls2, b)) :
    b = ps.all (convSkipOrMatch E U ls2.weights maxStepsDefault) := by
  unfold learnEpoch at h
  rw [if_pos hu] at h
  cases mp with
  | none =>
    simp only [Except.ok.injEq, Prod.mk.injEq] at h
    obtain ⟨h1, h2⟩ := h
    rw [← h2, ← h1]
    exact convLoop_flag_pos E U _ maxStepsDefault updateSteps hu ps _
  | some ms =>
    dsimp only at h
    split at h
    · cases h
    · split at h
      · cases h
      · simp only [Except.ok.injEq, Prod.mk.injEq] at h
        obtain ⟨h1, h2⟩ := h
        rw [← h2, ← h1]
        exact convLoop_flag_pos E U _ maxStepsDefault updateSteps hu ps _

/-- Witness for C4 amended: on a one-unit network whose full relax raises
for the only pattern, the epoch's flag is true, matching the all-skipped
characterisation. -/
theorem convergence_check_skips_exhausted_patterns_witness :
    (true : Bool)
      = [({ data := [1], isFloat64 := true } : NPVec)].all
          (convSkipOrMatch bipolarEnergy idUpdate [[0]] 2) :=
  convergence_check_skips_exhausted_patterns bipolarEnergy idUpdate (fun _ _ w => w) 2 1
    false 1 [{ data := [1], isFloat64 := true }] none
    { weights := [[0]], state := [1], resultStates := [], testAccuracies := [] }
    { weights := [[0]], state := [1], resultStates := [[1]], testAccuracies := [] } true
    (by norm_num) (by with_unfolding_all rfl)

/-- C4 counterexample.  The claim says the epoch loop stops early only if
every pattern's full relax() succeeds.  On a one-unit network where the
full relax() raises for the only pattern (zero bipolar energy keeps the
loop guard true until exhaustion), with a counting rule and maxEpochs = 2
(self-connections on so the count is observable on the diagonal), the run
still stops after one epoch: the weights show one rule application, while
a genuine second epoch would show two. -/
theorem exhausted_relax_counted_as_converged_counterexample :
    lpWeights (learnPatterns bipolarEnergy idUpdate (fun _ _ w => matAdd w [[1]]) 2 1 2 true
        { N := 1, weights := [[0]], state := [1] }
        [{ data := [1], isFloat64 := true }] none) = [[1]]
    ∧ relaxRun bipolarEnergy idUpdate [[1]] 2 [1] = Except.error [1]
    ∧ epochWeights (learnEpoch bipolarEnergy idUpdate (fun _ _ w => matAdd w [[1]]) 2 1 true 1
        [{ data := [1], isFloat64 := true }] none
        { weights := [[1]], state := [1], resultStates := [[1]],
          testAccuracies := [] }) = [[2]]
    ∧ ([[1]] : Mat) ≠ [[2]] := by
  refine ⟨by with_unfolding_all rfl, by with_unfolding_all rfl, by with_unfolding_all rfl,
    by simp⟩

/-- C2.  resultStates is initialised once, before the epoch loop, and is
appended to every epoch without being cleared, so from the second epoch on
the learning rule no longer receives one entry per pattern from the same
epoch.  On a concrete 2-unit network with one pattern, a rule that records
len(resultStates) in entry (0,1): after epoch 1 the entry is 1, but after
epoch 2 it is 2 (the rule received two accumulated entries for one
pattern), and the final resultStates holds two entries for the single
pattern; Delta itself reads only the first len(patterns) entries, the
stale first-epoch ones, as the last conjunct shows. -/
theorem resultStates_accumulate_across_epochs :
    learnPatterns bipolarEnergy (fun s _ => if s = [1, 1] then [1, -1] else s)
        (fun _ rs _ => [[0, (rs.length : ℚ)], [1, 0]]) 5 1 2 false
        { N := 2, weights := [[0, 0], [0, 0]], state := [1, 1] }
        [{ data := [1, 1], isFloat64 := true }] none
      = Except.ok { weights := [[0, 2], [1, 0]], state := [1, -1],
                    resultStates := [[1, -1], [1, -1]], testAccuracies := [] }
    ∧ learnPatterns bipolarEnergy (fun s _ => if s = [1, 1] then [1, -1] else s)
        (fun _ rs _ => [[0, (rs.length : ℚ)], [1, 0]]) 5 1 1 false
        { N := 2, weights := [[0, 0], [0, 0]], state := [1, 1] }
        [{ data := [1, 1], isFloat64 := true }] none
      = Except.ok { weights := [[0, 1], [1, 0]], state := [1, -1],
                    resultStates := [[1, -1]], testAccuracies := [] }
    ∧ deltaCall [[1, 1]] [[1, -1], [9, 9]] [[0, 0], [0, 0]]
      = deltaCall [[1, 1]] [[1, -1]] [[0, 0], [0, 0]] := by
  refine ⟨by with_unfolding_all rfl, by with_unfolding_all rfl, by with_unfolding_all rfl⟩


lemma mtaLoop_ok (E : EnergyFn) (U : UpdateFn) (w : Mat) (maxStepsDefault n : Nat) :
    ∀ (ms : List (NPVec × Vec)) (acc : ℚ) (st : Vec),
      (∀ m ∈ ms, validPattern n m.1 = true) →
      ∃ st2, mtaLoop E U w maxStepsDefault n ms acc st
        = Except.ok (acc + (countTestHits E U w maxStepsDefault ms : ℚ), st2) := by
  intro ms
  induction ms with
  | nil =>
    intro acc st _
    exact ⟨st, by simp [mtaLoop, countTestHits]⟩
  | cons m rest ih =>
    intro acc st hv
    obtain ⟨inp, expected⟩ := m
    have hvi : validPattern n inp = true := hv (inp, expected) (List.mem_cons_self _ _)
    have hvr : ∀ x ∈ rest, validPattern n x.1 = true :=
      fun x hx => hv x (List.mem_cons_of_mem _ hx)
    simp only [mtaLoop]
    rw [if_neg (by simp [hvi])]
    cases hr : relaxRun E U w maxStepsDefault inp.data with
    | error s2 =>
      dsimp only
      have hhit : testHit E U w maxStepsDefault (inp, expected) = false := by
        simp [testHit, hr]
      obtain ⟨st2, hloop⟩ := ih acc s2 hvr
      refine ⟨st2, ?_⟩
      rw [hloop]
      have hcnt : (countTestHits E U w maxStepsDefault ((inp, expected) :: rest) : ℚ)
          = (countTestHits E U w maxStepsDefault rest : ℚ) := by
        simp [countTestHits, List.countP_cons, hhit]
      rw [hcnt]
    | ok s2 =>
      dsimp only
      cases hc : compareState s2 expected with
      | true =>
        rw [if_pos rfl]
        have hhit : testHit E U w maxStepsDefault (inp, expected) = true := by
          simp [testHit, hr, hc]
        obtain ⟨st2, hloop⟩ := ih (acc + 1) s2 hvr
        refine ⟨st2, ?_⟩
        rw [hloop]
        have hcnt : acc + 1 + (countTestHits E U w maxStepsDefault rest : ℚ)
            = acc + (countTestHits E U w maxStepsDefault ((inp, expected) :: rest) : ℚ) := by
          simp only [countTestHits, List.countP_cons, hhit, if_pos rfl]
          push_cast
          ring
        rw [hcnt]
      | false =>
        rw [if_neg (by simp)]
        have hhit : testHit E U w maxStepsDefault (inp, expected) = false := by
          simp [testHit, hr, hc]
        obtain ⟨st2, hloop⟩ := ih acc s2 hvr
        refine ⟨st2, ?_⟩
        rw [hloop]
        have hcnt : (countTestHits E U w maxStepsDefault ((inp, expected) :: rest) : ℚ)
            = (countTestHits E U w maxStepsDefault rest : ℚ) := by
          simp [countTestHits, List.countP_cons, hhit]
        rw [hcnt]

lemma taskLoop_ok (E : EnergyFn) (U : UpdateFn) (w : Mat) (updateSteps n : Nat) :
    ∀ (task : List NPVec) (acc : ℚ) (st : Vec),
      (∀ p ∈ task, validPattern n p = true) →
      ∃ st2, taskLoop E U w updateSteps n task acc st
        = Except.ok (acc + (countTaskHits E U w updateSteps task : ℚ), st2) := by
  intro task
  induction task with
  | nil =>
    intro acc st _
    exact ⟨st, by simp [taskLoop, countTaskHits]⟩
  | cons p rest ih =>
    intro acc st hv
    have hvp : validPattern n p = true := hv p (List.mem_cons_self _ _)
    have hvr : ∀ x ∈ rest, validPattern n x = true :=
      fun x hx => hv x (List.mem_cons_of_mem _ hx)
    simp only [taskLoop]
    rw [if_neg (by simp [hvp])]
    cases hr : relaxRun E U w updateSteps p.data with
    | error s2 =>
      dsimp only
      have hhit : taskHit E U w updateSteps p = false := by simp [taskHit, hr]
      obtain ⟨st2, hloop⟩ := ih acc s2 hvr
      refine ⟨st2, ?_⟩
      rw [hloop]
      have hcnt : (countTaskHits E U w updateSteps (p :: rest) : ℚ)
          = (countTaskHits E U w updateSteps rest : ℚ) := by
        simp [countTaskHits, List.countP_cons, hhit]
      rw [hcnt]
    | ok s2 =>
      dsimp only
      cases hc : compareState s2 p.data with
      | true =>
        rw [if_pos rfl]
        have hhit : taskHit E U w updateSteps p = true := by simp [taskHit, hr, hc]
        obtain ⟨st2, hloop⟩ := ih (acc + 1) s2 hvr
        refine ⟨st2, ?_⟩
        rw [hloop]
        have hcnt : acc + 1 + (countTaskHits E U w updateSteps rest : ℚ)
            = acc + (countTaskHits E U w updateSteps (p :: rest) : ℚ) := by
          simp only [countTaskHits, List.countP_cons, hhit, if_pos rfl]
          push_cast
          ring
        rw [hcnt]
      | false =>
        rw [if_neg (by simp)]
        have hhit : taskHit E U w updateSteps p = false := by simp [taskHit, hr, hc]
        obtain ⟨st2, hloop⟩ := ih acc s2 hvr
        refine ⟨st2, ?_⟩
        rw [hloop]
        have hcnt : (countTaskHits E U w updateSteps (p :: rest) : ℚ)
            = (countTaskHits E U w updateSteps rest : ℚ) := by
          simp [countTaskHits, List.countP_cons, hhit]
        rw [hcnt]

lemma mtpsLoop_ok (E : EnergyFn) (U : UpdateFn) (w : Mat) (updateSteps n : Nat) :
    ∀ (tasks : List (List NPVec)) (accs : List ℚ) (st : Vec),
      (∀ t ∈ tasks, ∀ p ∈ t, validPattern n p = true) →
      (∀ t ∈ tasks, t ≠ []) →
      ∃ st2, mtpsLoop E U w updateSteps n tasks accs st
        = Except.ok (accs ++ tasks.map
            (fun t => (countTaskHits E U w updateSteps t : ℚ) / t.length), st2) := by
  intro tasks
  induction tasks with
  | nil =>
    intro accs st _ _
    exact ⟨st, by simp [mtpsLoop]⟩
  | cons t rest ih =>
    intro accs st hv hne
    obtain ⟨st2, hloop⟩ := taskLoop_ok E U w updateSteps n t 0 st
      (hv t (List.mem_cons_self _ _))
    simp only [mtpsLoop]
    rw [hloop]
    dsimp only
    have hlen : t.length ≠ 0 := by
      have := hne t (List.mem_cons_self _ _)
      simpa [List.length_eq_zero] using this
    unfold pyDiv
    rw [if_neg hlen]
    dsimp only
    obtain ⟨st3, hrest⟩ := ih (accs ++ [(0 + (countTaskHits E U w updateSteps t : ℚ)) / t.length])
      st2 (fun x hx => hv x (List.mem_cons_of_mem _ hx))
      (fun x hx => hne x (List.mem_cons_of_mem _ hx))
    refine ⟨st3, ?_⟩
    rw [hrest]
    simp

lemma mtpsLoop_empty_task (E : EnergyFn) (U : UpdateFn) (w : Mat) (updateSteps n : Nat) :
    ∀ (tasks : List (List NPVec)) (accs : List ℚ) (st : Vec),
      (∀ t ∈ tasks, ∀ p ∈ t, validPattern n p = true) → [] ∈ tasks →
      mtpsLoop E U w updateSteps n tasks accs st = Except.error PyErr.zeroDivisionError := by
  intro tasks
  induction tasks with
  | nil => intro accs st _ hmem; simp at hmem
  | cons t rest ih =>
    intro accs st hv hmem
    rcases List.mem_cons.mp hmem with ht | hmem2
    · subst ht
      simp [mtpsLoop, taskLoop, pyDiv]
    · obtain ⟨st2, hloop⟩ := taskLoop_ok E U w updateSteps n t 0 st
        (hv t (List.mem_cons_self _ _))
      simp only [mtpsLoop]
      rw [hloop]
      dsimp only
      by_cases hlen : t.length = 0
      · unfold pyDiv
        rw [if_pos hlen]
      · unfold pyDiv
        rw [if_neg hlen]
        dsimp only
        exact ih _ st2 (fun x hx => hv x (List.mem_cons_of_mem _ hx)) hmem2

/-- C10.  measureTestAccuracy on an empty mapping list and
measureTaskPatternStability on any task with zero patterns divide the
tally by a zero length and fail with ZeroDivisionError; on non-empty,
validly shaped inputs, measureTestAccuracy returns hits divided by the
number of mappings and measureTaskPatternStability returns, per task, the
stable-pattern count divided by the task size. -/
theorem measurement_division_and_fraction :
    (∀ (E : EnergyFn) (U : UpdateFn) (w : Mat) (maxStepsDefault n : Nat) (st : Vec),
      measureTestAccuracy E U w maxStepsDefault n [] st
        = Except.error PyErr.zeroDivisionError)
    ∧ (∀ (E : EnergyFn) (U : UpdateFn) (w : Mat) (maxStepsDefault n : Nat)
        (ms : List (NPVec × Vec)) (st : Vec),
        (∀ m ∈ ms, validPattern n m.1 = true) → ms ≠ [] →
        measureTestAccuracy E U w maxStepsDefault n ms st
          = Except.ok ((countTestHits E U w maxStepsDefault ms : ℚ) / ms.length))
    ∧ (∀ (E : EnergyFn) (U : UpdateFn) (w : Mat) (updateSteps n : Nat)
        (tasks : List (List NPVec)) (st : Vec),
        (∀ t ∈ tasks, ∀ p ∈ t, validPattern n p = true) → [] ∈ tasks →
        measureTaskPatternStability E U w updateSteps n tasks st
          = Except.error PyErr.zeroDivisionError)
    ∧ (∀ (E : EnergyFn) (U : UpdateFn) (w : Mat) (updateSteps n : Nat)
        (tasks : List (List NPVec)) (st : Vec),
        (∀ t ∈ tasks, ∀ p ∈ t, validPattern n p = true) → (∀ t ∈ tasks, t ≠ []) →
        measureTaskPatternStability E U w updateSteps n tasks st
          = Except.ok (tasks.map
              (fun t => (countTaskHits E U w updateSteps t : ℚ) / t.length))) := by
  refine ⟨?_, ?_, ?_, ?_⟩
  · intro E U w maxStepsDefault n st
    rfl
  · intro E U w maxStepsDefault n ms st hv hne
    obtain ⟨st2, hloop⟩ := mtaLoop_ok E U w maxStepsDefault n ms 0 st hv
    unfold measureTestAccuracy
    rw [hloop]
    dsimp only
    have hlen : ms.length ≠ 0 := by simpa [List.length_eq_zero] using hne
    unfold pyDiv
    rw [if_neg hlen, zero_add]
  · intro E U w updateSteps n tasks st hv hmem
    unfold measureTaskPatternStability
    rw [mtpsLoop_empty_task E U w updateSteps n tasks [] st hv hmem]
  · intro E U w updateSteps n tasks st hv hne
    obtain ⟨st2, hloop⟩ := mtpsLoop_ok E U w updateSteps n tasks [] st hv hne
    unfold measureTaskPatternStability
    rw [hloop]
    simp

/-- Witness for C10: one valid mapping on a one-unit network gives
hits divided by one mapping. -/
theorem measurement_division_and_fraction_witness :
    measureTestAccuracy bipolarEnergy idUpdate [[-1]] 3 1
        [({ data := [1], isFloat64 := true }, [1])] [1]
      = Except.ok ((countTestHits bipolarEnergy idUpdate [[-1]] 3
            [({ data := [1], isFloat64 := true }, [1])] : ℚ)
          / ([(({ data := [1], isFloat64 := true } : NPVec), ([1] : Vec))].length)) :=
  measurement_division_and_fraction.2.1 bipolarEnergy idUpdate [[-1]] 3 1
    [({ data := [1], isFloat64 := true }, [1])] [1]
    (by intro m hm; rw [List.mem_singleton] at hm; subst hm; rfl) (by simp)


end HopfieldSpec
